import Mathlib

/-!
Shallow embedding of the multi-armed-bandit recommendation core
(`recommend/app/models/bandit.py`): products, bandit state, the
epsilon-greedy and UCB selection policies, the diversity multi-select,
the cold-start content scorer and the bandit manager, together with
proofs of the specified properties.

Randomness (`np.random.random`, `np.random.randint`, `np.random.choice`,
the sort jitter and `random.shuffle`) is modelled by explicit oracle
parameters: each random draw is an input, and theorems quantify over all
draws.
-/

namespace WalBandit

/-- `ProductFeatures` dataclass. -/
structure ProductFeatures where
  avg_rating : ℚ
  review_count : ℤ
  price_competitiveness : ℚ
  market_position : String
  days_since_launch : ℤ
  trend_momentum : ℚ
  lifecycle_stage : String
deriving DecidableEq, Repr, Inhabited

/-- `Product` dataclass. -/
structure Product where
  id : String
  name : String
  description : String
  price : ℚ
  category : String
  brand : String
  imageUrl : String
  features : Option ProductFeatures := none
deriving DecidableEq, Repr, Inhabited

/-- `UserInteraction` dataclass (the `context` dict is irrelevant to the
verified properties and is modelled as an opaque string option). -/
structure UserInteraction where
  id : String
  userId : String
  productId : String
  action : String
  reward : ℚ
  context : Option String := none
  createdAt : String
  product : Product
deriving DecidableEq, Repr, Inhabited

/-- One step of building a Python `dict` keyed by product id:
an existing key keeps its position and gets the new value, a new key is
appended (insertion order). -/
def dictInsert (d : List (String × Product)) (p : Product) : List (String × Product) :=
  if d.any (fun kv => kv.1 == p.id) then
    d.map (fun kv => if kv.1 = p.id then (kv.1, p) else kv)
  else d ++ [(p.id, p)]

/-- `{p.id: p for p in products}`. -/
def dictFromList (ps : List Product) : List (String × Product) :=
  ps.foldl dictInsert []

/-- `dict[pid]` lookup. -/
def dictFind? : List (String × Product) → String → Option Product
  | [], _ => none
  | kv :: rest, pid => if kv.1 = pid then some kv.2 else dictFind? rest pid

/-- Well-formedness of an id-keyed product dict: keys are distinct and
each value's `id` equals its key. -/
def dictWF (d : List (String × Product)) : Prop :=
  (d.map Prod.fst).Nodup ∧ ∀ kv ∈ d, kv.2.id = kv.1

instance (d : List (String × Product)) : Decidable (dictWF d) :=
  inferInstanceAs (Decidable ((d.map Prod.fst).Nodup ∧ ∀ kv ∈ d, kv.2.id = kv.1))

/-- Shared mutable state of `MultiArmedBandit`: the (immutable) arm set
and the per-arm statistics.  `product_ids`, `n_arms` and
`product_to_arm` are derived from `products`. -/
structure MultiArmedBandit where
  products : List (String × Product)
  counts : List ℕ
  rewards : List ℚ
  total_pulls : ℕ
deriving DecidableEq, Repr

/-- `self.product_ids = list(self.products.keys())`. -/
def MultiArmedBandit.product_ids (b : MultiArmedBandit) : List String :=
  b.products.map Prod.fst

/-- `self.n_arms = len(self.product_ids)`. -/
def MultiArmedBandit.n_arms (b : MultiArmedBandit) : ℕ :=
  b.products.length

/-- `self.product_to_arm[pid]`: index of `pid` in `product_ids`. -/
def idxOf? : List String → String → Option ℕ
  | [], _ => none
  | x :: xs, pid => if x = pid then some 0 else (idxOf? xs pid).map (· + 1)

/-- `MultiArmedBandit.__init__`: builds the product dict, zeroes the
statistics; raises (`none`) when the product list is empty. -/
def mkBandit (ps : List Product) : Option MultiArmedBandit :=
  let d := dictFromList ps
  if d.length = 0 then none
  else some { products := d,
              counts := List.replicate d.length 0,
              rewards := List.replicate d.length 0,
              total_pulls := 0 }

/-- `max(x :: xs)` of a nonempty list, seeded with its head. -/
def maxNe {α : Type} [LinearOrder α] (x : α) : List α → α
  | [] => x
  | y :: ys => max x (maxNe y ys)

/-- `min(x :: xs)` of a nonempty list, seeded with its head. -/
def minNe {α : Type} [LinearOrder α] (x : α) : List α → α
  | [] => x
  | y :: ys => min x (minNe y ys)

/-- `np.argmax`: index of the first occurrence of the maximum. -/
def argmaxList {α : Type} [LinearOrder α] : List α → ℕ
  | [] => 0
  | [_] => 0
  | x :: y :: xs => if x < maxNe y xs then argmaxList (y :: xs) + 1 else 0

/-- `np.divide(rewards, counts, out=zeros, where counts != 0)`:
elementwise average reward, `0` where the count is zero. -/
def avgRewards (rewards : List ℚ) (counts : List ℕ) : List ℚ :=
  (rewards.zip counts).map (fun rc => if rc.2 = 0 then 0 else rc.1 / (rc.2 : ℚ))

/-- The random inputs one `select_arm` call may consume: `u` models a
`np.random.random()` draw in `[0,1)` and `k` an integer draw
(`np.random.randint` / `np.random.choice`). -/
structure Draw where
  u : ℚ
  k : ℕ
deriving DecidableEq, Repr

instance : Inhabited Draw := ⟨⟨0, 0⟩⟩

/-- `EpsilonGreedyBandit.select_arm`. -/
def egSelectArm (epsilon : ℚ) (b : MultiArmedBandit) (r : Draw) : ℕ :=
  if r.u < epsilon then r.k % b.n_arms
  else if b.counts.any (fun c => decide (0 < c)) then
    argmaxList (avgRewards b.rewards b.counts)
  else r.k % b.n_arms

/-- `UCBBandit.select_arm` confidence terms: for each arm,
`avg + sqrt(confidence * ln(max 1 total_pulls) / count)`. -/
noncomputable def ucbValues (c : ℚ) (b : MultiArmedBandit) : List ℝ :=
  (List.range b.n_arms).map (fun i =>
    ((b.rewards.getD i 0 : ℚ) : ℝ) / (b.counts.getD i 0 : ℝ) +
      Real.sqrt ((c : ℝ) * Real.log ((max 1 b.total_pulls : ℕ) : ℝ) / (b.counts.getD i 0 : ℝ)))

/-- `UCBBandit.select_arm`: `-1` on an empty arm set, otherwise a random
unpulled arm when one exists, else the argmax of the UCB values. -/
noncomputable def ucbSelectArm (c : ℚ) (b : MultiArmedBandit) (r : Draw) : ℤ :=
  if b.n_arms = 0 then -1
  else
    let unpulled := (List.range b.n_arms).filter (fun i => decide (b.counts.getD i 0 = 0))
    if unpulled.length ≠ 0 then (unpulled.getD (r.k % unpulled.length) 0 : ℤ)
    else (argmaxList (ucbValues c b) : ℤ)

/-- The two concrete bandit classes with their policy parameters. -/
inductive BType where
  | epsilon_greedy (epsilon : ℚ)
  | ucb (confidence_level : ℚ)
deriving DecidableEq, Repr

/-- `0.1`, the `EpsilonGreedyBandit` constructor default, written as an
already-normalized rational literal. -/
def defaultEpsilon : ℚ := Rat.mk' 1 10 (by decide) (by decide)

/-- `type(self)(products=...)` inside `select_products` calls the
constructor without policy arguments, so the temporary bandit gets the
constructor defaults (`epsilon=0.1`, `confidence_level=2.0`). -/
def BType.withDefaults : BType → BType
  | .epsilon_greedy _ => .epsilon_greedy defaultEpsilon
  | .ucb _ => .ucb 2

/-- Dispatch of `select_arm` for a direct call on an array-backed
bandit (`self.counts`/`self.rewards` are numpy arrays, so the
elementwise comparisons of the two policies behave as written). -/
noncomputable def select_arm : BType → MultiArmedBandit → Draw → ℤ
  | .epsilon_greedy e, b, r => (egSelectArm e b r : ℤ)
  | .ucb c, b, r => ucbSelectArm c b r

/-!
Inside `select_products` the temporary bandit is different: the source
overwrites `temp_bandit.counts` / `temp_bandit.rewards` with plain
Python lists (list comprehensions), and list semantics change both
policies:
- epsilon-greedy: `np.divide(..., where=self.counts != 0)` gets the
  scalar `True` (`list != 0`) and only warns, but the following
  `np.any(self.counts > 0)` evaluates `list > int` and raises
  `TypeError`, so every exploit-branch draw raises;
- UCB: `np.where(self.counts == 0)` sees the scalar `False`
  (`list == 0`), so the unpulled-arm branch never fires, and the UCB
  loop runs on `np.float64` entries with IEEE results (`nan`/`inf` on
  zero counts, warnings but no exception), `np.argmax` stopping at the
  first `nan`.
The `...Temp` definitions below model exactly this behaviour.
-/

/-- An IEEE-754 double as produced by the list-typed UCB loop: a finite
value, a signed infinity, or a `nan`. -/
inductive NpVal where
  | nan
  | pinf
  | ninf
  | fin (x : ℝ)

/-- IEEE addition on such values: `nan` absorbs, opposite infinities
give `nan`, an infinity absorbs finite values. -/
noncomputable def addNp : NpVal → NpVal → NpVal
  | .nan, _ => .nan
  | _, .nan => .nan
  | .pinf, .ninf => .nan
  | .ninf, .pinf => .nan
  | .pinf, _ => .pinf
  | _, .pinf => .pinf
  | .ninf, _ => .ninf
  | _, .ninf => .ninf
  | .fin x, .fin y => .fin (x + y)

/-- Index of the first `nan` in a float64 vector, if any. -/
def firstNanIdx? : List NpVal → Option ℕ
  | [] => none
  | v :: rest =>
    match v with
    | .nan => some 0
    | _ => (firstNanIdx? rest).map (· + 1)

/-- Reading a non-`nan` float64 value on the extended real line (the
`nan` case is irrelevant: `argmaxNp` handles it separately). -/
def NpVal.toEReal : NpVal → EReal
  | .nan => ⊥
  | .pinf => ⊤
  | .ninf => ⊥
  | .fin x => (x : EReal)

/-- `np.argmax` on a float64 vector: numpy's scan stops at the first
`nan` (its comparison `!(v <= max)` makes a `nan` maximal), so the
result is the first `nan` index when one exists, else the first
occurrence of the maximum. -/
noncomputable def argmaxNp (l : List NpVal) : ℕ :=
  match firstNanIdx? l with
  | some i => i
  | none => argmaxList (l.map NpVal.toEReal)

/-- One arm's UCB value in the list-typed temp bandit, with np.float64
semantics: `avg = rewards[i] / counts[i]` is `nan` (`0.0/0.0`) or
`±inf` for a zero count; the confidence term
`math.sqrt(confidence * ln(max 1 total) / count)` is `+inf` for a
positive numerator over a zero count, `nan` for `0.0/0.0`, and raises
`ValueError` when `math.sqrt` receives a negative argument (numerator
negative — impossible for the constructor-default confidence 2.0). -/
noncomputable def npArmValue (cl : ℚ) (b : MultiArmedBandit) (i : ℕ) : Except String NpVal :=
  let c := b.counts.getD i 0
  let r := b.rewards.getD i 0
  let num : ℝ := (cl : ℝ) * Real.log ((max 1 b.total_pulls : ℕ) : ℝ)
  let avg : NpVal :=
    if c ≠ 0 then .fin ((r : ℝ) / (c : ℝ))
    else if r = 0 then .nan
    else if 0 < r then .pinf
    else .ninf
  if c ≠ 0 then
    if num < 0 then .error "ValueError: math domain error"
    else .ok (addNp avg (.fin (Real.sqrt (num / (c : ℝ)))))
  else
    if num = 0 then .ok (addNp avg .nan)
    else if 0 < num then .ok (addNp avg .pinf)
    else .error "ValueError: math domain error"

/-- The UCB loop over the arm indices, stopping at the first raised
error. -/
noncomputable def collectVals (cl : ℚ) (b : MultiArmedBandit) :
    List ℕ → Except String (List NpVal)
  | [] => .ok []
  | i :: rest =>
    match npArmValue cl b i with
    | .error e => .error e
    | .ok v =>
      match collectVals cl b rest with
      | .error e => .error e
      | .ok vs => .ok (v :: vs)

/-- `EpsilonGreedyBandit.select_arm` on a list-typed temp bandit: the
explore branch works; the exploit branch raises `TypeError` at
`np.any(self.counts > 0)` (`list > int`). -/
def egSelectArmTemp (epsilon : ℚ) (b : MultiArmedBandit) (r : Draw) : Except String ℕ :=
  if r.u < epsilon then .ok (r.k % b.n_arms)
  else .error "TypeError: list > int"

/-- `UCBBandit.select_arm` on a list-typed temp bandit: `-1` on an
empty arm set; the unpulled branch is dead (`np.where(list == 0)` finds
nothing), so the float64 UCB loop and `np.argmax` decide. -/
noncomputable def ucbSelectArmTemp (cl : ℚ) (b : MultiArmedBandit) (_r : Draw) :
    Except String ℤ :=
  if b.n_arms = 0 then .ok (-1)
  else
    match collectVals cl b (List.range b.n_arms) with
    | .error e => .error e
    | .ok vals => .ok (argmaxNp vals : ℤ)

/-- Dispatch of `select_arm` on the temp bandit per concrete class
(the epsilon-greedy index is returned as a Python int, read as ℤ). -/
noncomputable def selectArmTemp : BType → MultiArmedBandit → Draw → Except String ℤ
  | .epsilon_greedy e, b, r =>
    match egSelectArmTemp e b r with
    | .error err => .error err
    | .ok n => .ok (n : ℤ)
  | .ucb c, b, r => ucbSelectArmTemp c b r

/-- The temporary bandit built by `select_products` for one round: the
products at the available indices, with counts/rewards overwritten by
plain Python lists (list comprehensions over the original arrays) and
the global `total_pulls`; because the stats are lists, selection on
this state follows the `...Temp` semantics above. -/
def mkTempBandit (b : MultiArmedBandit) (avail : List ℕ) : MultiArmedBandit :=
  { products := avail.map (fun i => b.products.getD i ("", default)),
    counts := avail.map (fun i => b.counts.getD i 0),
    rewards := avail.map (fun i => b.rewards.getD i 0),
    total_pulls := b.total_pulls }

/-- The selection loop of `select_products`: one iteration per unit of
fuel (`num_to_select`), each round building a temporary bandit over the
available original indices, asking it for an arm (list-typed temp
semantics — a raised `TypeError`/`ValueError` propagates out of the
whole loop, discarding the picks so far), recording the product id and
erasing the chosen index; a `-1` result breaks, returning the picks so
far.  The source also adds the chosen id to its running exclusion set,
but that set is only read when the available list is first computed, so
it is not part of the loop state. -/
noncomputable def selectLoop (bt : BType) (b : MultiArmedBandit) :
    ℕ → List ℕ → List Draw → Except String (List String)
  | 0, _, _ => .ok []
  | fuel + 1, avail, rands =>
    if avail = [] then .ok []
    else
      match selectArmTemp bt.withDefaults (mkTempBandit b avail) (rands.headD default) with
      | .error e => .error e
      | .ok sel =>
        if sel = -1 then .ok []
        else
          match selectLoop bt b fuel (avail.eraseIdx sel.toNat) rands.tail with
          | .error e => .error e
          | .ok rest =>
            .ok ((b.products.getD (avail.getD sel.toNat 0) ("", default)).1 :: rest)

/-- `MultiArmedBandit.select_products`: filters out excluded arms,
then runs the diversity loop `len(available)` times (the `n_products`
argument is not used by the loop bound in the source) and maps the
collected ids back to `Product` objects; an exception raised by a temp
bandit propagates to the caller. -/
noncomputable def select_products (bt : BType) (b : MultiArmedBandit)
    (n_products : ℕ) (exclude_products : List String) (rands : List Draw) :
    Except String (List Product) :=
  let avail := (List.range b.n_arms).filter
    (fun i => decide ((b.products.getD i ("", default)).1 ∉ exclude_products))
  if avail = [] then .ok []
  else
    let num_to_select := avail.length
    (selectLoop bt b num_to_select avail rands).map
      (fun ids => ids.map (fun pid => (dictFind? b.products pid).getD default))

/-- `ProductScorer.score_product`: sum of the rewards of the
interactions referring to `product_id`. -/
def score_product (product_id : String) (interactions : List UserInteraction) : ℚ :=
  ((interactions.filter (fun i => i.productId == product_id)).map (fun i => i.reward)).sum

/-- One step of grouping interactions by product id into a Python dict
of lists (insertion order of keys, appended values). -/
def groupInsert (g : List (String × List UserInteraction)) (x : UserInteraction) :
    List (String × List UserInteraction) :=
  if g.any (fun kv => kv.1 == x.productId) then
    g.map (fun kv => if kv.1 = x.productId then (kv.1, kv.2 ++ [x]) else kv)
  else g ++ [(x.productId, [x])]

/-- The `product_interactions` dict of `update_rewards`: interactions
whose product id is a known arm, grouped by product id. -/
def groupByKnown (b : MultiArmedBandit) (interactions : List UserInteraction) :
    List (String × List UserInteraction) :=
  interactions.foldl
    (fun g x => if (idxOf? b.product_ids x.productId).isSome then groupInsert g x else g) []

/-- `MultiArmedBandit.update_rewards`: zero the statistics, then for
each grouped product set its cumulative reward and count, and recompute
`total_pulls` as the sum of the counts. -/
def update_rewards (b : MultiArmedBandit) (interactions : List UserInteraction) :
    MultiArmedBandit :=
  let grouped := groupByKnown b interactions
  let cr := grouped.foldl
    (fun (cr : List ℕ × List ℚ) kv =>
      match idxOf? b.product_ids kv.1 with
      | some arm_idx => (cr.1.set arm_idx kv.2.length, cr.2.set arm_idx (score_product kv.1 kv.2))
      | none => cr)
    (List.replicate b.n_arms 0, List.replicate b.n_arms 0)
  { b with counts := cr.1, rewards := cr.2, total_pulls := cr.1.sum }

/-- `MultiArmedBandit.update`: single incremental reward; a warning
no-op when the product id is not an arm. -/
def update (b : MultiArmedBandit) (product_id : String) (reward : ℚ) : MultiArmedBandit :=
  match idxOf? b.product_ids product_id with
  | none => b
  | some arm_idx =>
    { b with counts := b.counts.set arm_idx (b.counts.getD arm_idx 0 + 1),
             rewards := b.rewards.set arm_idx (b.rewards.getD arm_idx 0 + reward),
             total_pulls := b.total_pulls + 1 }

/-- `MultiArmedBandit.reset`. -/
def reset (b : MultiArmedBandit) : MultiArmedBandit :=
  { b with counts := List.replicate b.n_arms 0,
           rewards := List.replicate b.n_arms 0,
           total_pulls := 0 }

/-- The mutating operations a bandit instance undergoes after
construction. -/
inductive BanditOp where
  | update (product_id : String) (reward : ℚ)
  | update_rewards (interactions : List UserInteraction)
  | reset
deriving Repr

/-- Apply one operation. -/
def applyOp (b : MultiArmedBandit) : BanditOp → MultiArmedBandit
  | .update pid r => update b pid r
  | .update_rewards xs => update_rewards b xs
  | .reset => reset b

/-- Apply a sequence of operations in order. -/
def applyOps (b : MultiArmedBandit) (ops : List BanditOp) : MultiArmedBandit :=
  ops.foldl applyOp b

/-- One row of `get_product_stats`. -/
structure ProductStat where
  product_id : String
  product_name : String
  category : String
  interaction_count : ℕ
  average_reward : ℚ
  priority_score : ℚ
deriving DecidableEq, Repr

/-- Stable insertion of a row into a priority-descending list (a later
row goes after earlier rows with the same priority, matching Python's
stable `list.sort(..., reverse=True)`). -/
def insertStatDesc (x : ProductStat) : List ProductStat → List ProductStat
  | [] => [x]
  | y :: ys =>
    if y.priority_score ≤ x.priority_score then x :: y :: ys
    else y :: insertStatDesc x ys

/-- Stable sort by `priority_score` descending. -/
def sortStatsDesc : List ProductStat → List ProductStat
  | [] => []
  | x :: xs => insertStatDesc x (sortStatsDesc xs)

/-- `MultiArmedBandit.get_product_stats`: per-arm rows (average reward
zero for unpulled arms, priority equal to the average) sorted by
priority descending. -/
def get_product_stats (b : MultiArmedBandit) : List ProductStat :=
  let rows := (List.range b.n_arms).map (fun i =>
    let kv := b.products.getD i ("", default)
    let avg : ℚ := if 0 < b.counts.getD i 0
      then b.rewards.getD i 0 / (b.counts.getD i 0 : ℚ) else 0
    { product_id := kv.1,
      product_name := kv.2.name,
      category := kv.2.category,
      interaction_count := b.counts.getD i 0,
      average_reward := avg,
      priority_score := avg })
  sortStatsDesc rows

/-- `ColdStartRecommender` state: the product dict plus the
normalization statistics computed by `_prepare_feature_cache`
(`rating_stats`, `review_count_stats`, `launch_stats`). -/
structure ColdStartRecommender where
  products : List (String × Product)
  rating_min : ℚ
  rating_max : ℚ
  review_max : ℤ
  launch_max : ℤ
deriving DecidableEq, Repr

/-- `ColdStartRecommender.__init__` / `_prepare_feature_cache`:
normalization bases over the products that carry features, with the
source's defaults when there are none. -/
def mkColdStart (ps : List Product) : ColdStartRecommender :=
  let d := dictFromList ps
  let feats := (d.map Prod.snd).filterMap (fun p => p.features)
  let ratings := feats.map (fun f => f.avg_rating)
  let reviews := feats.map (fun f => f.review_count)
  let launches := feats.map (fun f => f.days_since_launch)
  { products := d,
    rating_min := match ratings with | [] => 0 | x :: xs => minNe x xs,
    rating_max := match ratings with | [] => 5 | x :: xs => maxNe x xs,
    review_max := match reviews with | [] => 100 | x :: xs => maxNe x xs,
    launch_max := match launches with | [] => 365 | x :: xs => maxNe x xs }

/-- The `lifecycle_bonuses` lookup with default `0.5`. -/
def lifecycleBonus (stage : String) : ℝ :=
  if stage = "New" then 0.9
  else if stage = "Growing" then 0.8
  else if stage = "Mature" then 0.6
  else if stage = "Declining" then 0.3
  else 0.5

/-- `ColdStartRecommender._calculate_product_score`: weighted sum of the
normalized features, clamped to `[0, 1]`; flat `0.5` without feature
data. -/
noncomputable def calculate_product_score (cs : ColdStartRecommender) (p : Product) : ℝ :=
  match p.features with
  | none => 0.5
  | some f =>
    let s1 : ℝ :=
      if cs.rating_min < cs.rating_max then
        (((f.avg_rating : ℚ) : ℝ) - ((cs.rating_min : ℚ) : ℝ)) /
          (((cs.rating_max : ℚ) : ℝ) - ((cs.rating_min : ℚ) : ℝ)) * 0.25
      else 0.8 * 0.25
    let s2 : ℝ :=
      if 0 < f.review_count ∧ 0 < cs.review_max then
        Real.log ((1 + f.review_count : ℤ) : ℝ) / Real.log ((1 + cs.review_max : ℤ) : ℝ) * 0.15
      else 0
    let s3 : ℝ := ((f.price_competitiveness : ℚ) : ℝ) * 0.20
    let s4 : ℝ := (((f.trend_momentum : ℚ) : ℝ) + 1) / 2 * 0.15
    let s5 : ℝ :=
      (if f.days_since_launch ≤ 30 then (1.0 : ℝ)
       else if f.days_since_launch ≤ 90 then 0.8
       else if f.days_since_launch ≤ 180 then 0.6
       else 0.4) * 0.10
    let s6 : ℝ := lifecycleBonus f.lifecycle_stage * 0.15
    max 0 (min 1 (s1 + s2 + s3 + s4 + s5 + s6))

/-- `self._feature_cache.get(pid, 0.0)`: the cached score of a known
product, `0` for an unknown id. -/
noncomputable def featureCache (cs : ColdStartRecommender) (pid : String) : ℝ :=
  match dictFind? cs.products pid with
  | some p => calculate_product_score cs p
  | none => 0

/-- `str.lower()`. -/
def strLower (s : String) : String := s.map Char.toLower

/-- Stable insertion into a key-descending list (equal keys: the
inserted, originally-earlier element goes first, matching Python's
stable sort with `reverse=True`). -/
noncomputable def insertByDesc {α : Type} (key : α → ℝ) (x : α) : List α → List α
  | [] => [x]
  | y :: ys => if key y ≤ key x then x :: y :: ys else y :: insertByDesc key x ys

/-- Stable sort by a real-valued key, descending. -/
noncomputable def sortByDesc {α : Type} (key : α → ℝ) : List α → List α
  | [] => []
  | x :: xs => insertByDesc key x (sortByDesc key xs)

/-- `ColdStartRecommender.get_cold_start_recommendations`: filter,
fall back to the unfiltered (minus excluded) catalog when the filters
leave nothing, then sort by cached score plus a per-element jitter draw
(the `np.random.normal(0, 0.01)` of the sort key), descending. -/
noncomputable def get_cold_start_recommendations (cs : ColdStartRecommender)
    (category_filter : Option String) (price_range : Option (ℚ × ℚ))
    (market_position : Option String) (exclude_products : List String)
    (jitters : List ℝ) : List Product :=
  let vals := cs.products.map Prod.snd
  let filtered := vals.filter (fun p =>
    decide (p.id ∉ exclude_products) &&
    (match category_filter with
     | some c => strLower p.category == strLower c
     | none => true) &&
    (match price_range with
     | some pr => decide (pr.1 ≤ p.price) && decide (p.price ≤ pr.2)
     | none => true) &&
    (match market_position, p.features with
     | some mp, some f => strLower f.market_position == strLower mp
     | _, _ => true))
  let filtered := if filtered.isEmpty then vals.filter (fun p => decide (p.id ∉ exclude_products))
                  else filtered
  let product_scores := filtered.enum.map
    (fun ip => (ip.2, featureCache cs ip.2.id + jitters.getD ip.1 0))
  (sortByDesc Prod.snd product_scores).map Prod.fst

/-- `ColdStartRecommender.get_trending_products`. -/
noncomputable def get_trending_products (cs : ColdStartRecommender)
    (n_products : ℕ) (min_trend_momentum : ℚ) (exclude_products : List String) : List Product :=
  let vals := cs.products.map Prod.snd
  let candidates := vals.filter (fun p =>
    decide (p.id ∉ exclude_products) &&
    (match p.features with
     | some f => decide (min_trend_momentum ≤ f.trend_momentum) &&
         (f.lifecycle_stage == "New" || f.lifecycle_stage == "Growing")
     | none => false))
  let candidates :=
    if candidates.isEmpty then
      vals.filter (fun p =>
        decide (p.id ∉ exclude_products) &&
        (match p.features with
         | some f => decide (0 < f.trend_momentum)
         | none => false))
    else candidates
  let scored := candidates.map (fun p =>
    let tm : ℚ := ((p.features.map (fun f => f.trend_momentum)).getD 0)
    let stage := (p.features.map (fun f => f.lifecycle_stage)).getD ""
    (p, featureCache cs p.id + ((tm : ℚ) : ℝ) * 0.3 +
        (if stage = "New" ∨ stage = "Growing" then (0.2 : ℝ) else 0)))
  ((sortByDesc Prod.snd scored).map Prod.fst).take n_products

/-- `BanditManager` state: the context dict of bandits (each stored
with its concrete class and parameters), the optional cold-start
recommender, the defaults and the served counter. -/
structure BanditManager where
  bandits : List (String × BType × MultiArmedBandit)
  cold_start_recommender : Option ColdStartRecommender
  default_bandit_type : String := "epsilon_greedy"
  default_epsilon : ℚ := 1/10
  default_confidence_level : ℚ := 2
  total_recommendations_served : ℕ
deriving Repr

/-- `self.bandits.get(context)`. -/
def managerFind? : List (String × BType × MultiArmedBandit) → String →
    Option (BType × MultiArmedBandit)
  | [], _ => none
  | kv :: rest, context => if kv.1 = context then some kv.2 else managerFind? rest context

/-- Random inputs one `get_recommendations` call may consume: jitter
draws for a cold-start sort, arm draws for a single-context selection,
per-bandit arm draws and per-bandit failure injection for the global
merge, shuffle draws, and the wall-clock timestamp. -/
structure RecOracle where
  jitters : List ℝ
  rands : List Draw
  randss : List (List Draw)
  fails : List Bool
  ks : List ℕ
  timestamp : String

/-- The concatenation step of `_get_global_recommendations`: each
bandit is asked independently for `n_products`; the per-bandit
`except` logs a warning and skips the bandit both on the real raises of
`select_products` (the temp-bandit `TypeError`/`ValueError`) and on any
other injected failure (`fails`); the surviving results are
concatenated in context order. -/
noncomputable def gatherAllRecommendations (m : BanditManager) (n_products : ℕ)
    (exclude_products : List String) (randss : List (List Draw)) (fails : List Bool) :
    List Product :=
  m.bandits.enum.foldl
    (fun acc ib =>
      if fails.getD ib.1 false then acc
      else
        match select_products ib.2.2.1 ib.2.2.2 n_products exclude_products
            (randss.getD ib.1 []) with
        | .error _ => acc
        | .ok recs => acc ++ recs)
    []

/-- The deduplication of `_get_global_recommendations`: keep the first
occurrence of each product id, seeding the seen-set with the caller's
exclusions. -/
def dedupSeen : List Product → List String → List Product
  | [], _ => []
  | p :: rest, seen =>
    if p.id ∈ seen then dedupSeen rest seen
    else p :: dedupSeen rest (p.id :: seen)

/-- `random.shuffle` modelled by index draws: repeatedly extract the
element at the drawn position. -/
def shuffleModel {α : Type} : List α → List ℕ → List α
  | l, [] => l
  | l, k :: ks =>
    match l with
    | [] => []
    | x :: xs =>
      ((x :: xs).getD (k % (xs.length + 1)) x) ::
        shuffleModel ((x :: xs).eraseIdx (k % (xs.length + 1))) ks

/-- `BanditManager._get_global_recommendations`: concatenate all
bandits' selections, deduplicate by id (seen-set seeded with the
exclusions), shuffle, and return the whole deduplicated list. -/
noncomputable def get_global_recommendations (m : BanditManager) (n_products : ℕ)
    (exclude_products : List String) (randss : List (List Draw)) (fails : List Bool)
    (ks : List ℕ) : List Product :=
  let all_recommendations := gatherAllRecommendations m n_products exclude_products randss fails
  let unique_recommendations := dedupSeen all_recommendations exclude_products
  shuffleModel unique_recommendations ks

/-- The `try` body of `BanditManager.get_recommendations`: the strategy
state machine plus the last-resort cold-start fallback; returns the
product list and the source tag, or the exception raised by a direct
`select_products` call (the only sub-call of the body that raises). -/
noncomputable def chooseRecommendations (m : BanditManager) (n_products : ℕ)
    (context : String) (is_new_user : Bool) (exclude_products : List String)
    (recommendation_strategy : String) (o : RecOracle) :
    Except String (List Product × String) :=
  let step1 : Except String (List Product × String) :=
    if recommendation_strategy = "cold_start" ∨
        (recommendation_strategy = "adaptive" ∧ is_new_user) then
      match m.cold_start_recommender with
      | some cs =>
        .ok (get_cold_start_recommendations cs none none none exclude_products o.jitters,
          "cold_start")
      | none => .ok ([], "unknown")
    else if recommendation_strategy = "trending" then
      match m.cold_start_recommender with
      | some cs => .ok (get_trending_products cs n_products (3/10) exclude_products, "trending")
      | none => .ok ([], "unknown")
    else if recommendation_strategy = "bandit" ∨
        (recommendation_strategy = "adaptive" ∧ ¬is_new_user) then
      if context = "global" then
        if ¬m.bandits.isEmpty then
          .ok (get_global_recommendations m n_products exclude_products o.randss o.fails o.ks,
            "global_bandit")
        else
          match m.cold_start_recommender with
          | some cs =>
            .ok (get_cold_start_recommendations cs none none none exclude_products o.jitters,
              "cold_start_fallback")
          | none => .ok ([], "unknown")
      else
        match managerFind? m.bandits context with
        | some bs =>
          match select_products bs.1 bs.2 n_products exclude_products o.rands with
          | .error e => .error e
          | .ok recs => .ok (recs, "bandit")
        | none =>
          match m.cold_start_recommender with
          | some cs =>
            .ok (get_cold_start_recommendations cs none none none exclude_products o.jitters,
              "cold_start_fallback")
          | none => .ok ([], "unknown")
    else .ok ([], "unknown")
  match step1 with
  | .error e => .error e
  | .ok s =>
    if s.1 = [] ∧ m.cold_start_recommender.isSome ∧
        s.2 ≠ "cold_start" ∧ s.2 ≠ "cold_start_fallback" then
      match m.cold_start_recommender with
      | some cs =>
        .ok (get_cold_start_recommendations cs none none none exclude_products o.jitters,
          "cold_start_last_resort")
      | none => .ok s
    else .ok s

/-- One entry of the `recommendations` list of the response. -/
structure RecProduct where
  id : String
  name : String
  price : ℚ
  category : String
  imageUrl : String
deriving DecidableEq, Repr

/-- The `metadata` part of the response (the source never puts the
message of a caught exception here — it only logs it). -/
structure RecMetadata where
  recommendation_source : String
  is_new_user : Bool
  total_recommended_count : ℕ
  timestamp : String
deriving DecidableEq, Repr

/-- The response dict of `get_recommendations`. -/
structure RecResult where
  user_id : String
  context : String
  recommendations : List RecProduct
  metadata : RecMetadata
deriving DecidableEq, Repr

/-- `BanditManager.get_recommendations`: the routing state machine in a
`try` whose handler falls back to cold start (tag
`error_cold_start_fallback`) or, without a recommender, to an empty
`error`-tagged result; the served counter is incremented on every path.
The `try` body can raise for real (a temp-bandit `TypeError` /
`ValueError` out of `select_products`); the `exc` oracle additionally
injects any other runtime exception: `some msg` means the body raised
with that message before producing a result. -/
noncomputable def get_recommendations (m : BanditManager) (user_id : String)
    (n_products : ℕ) (context : String) (user_interactions_count : ℕ)
    (exclude_products : List String) (recommendation_strategy : String)
    (o : RecOracle) (exc : Option String) : BanditManager × RecResult :=
  let is_new_user : Bool := user_interactions_count == 0
  let rs : List Product × String :=
    match exc with
    | none =>
      match chooseRecommendations m n_products context is_new_user exclude_products
          recommendation_strategy o with
      | .ok s => s
      | .error _ =>
        match m.cold_start_recommender with
        | some cs =>
          (get_cold_start_recommendations cs none none none exclude_products o.jitters,
           "error_cold_start_fallback")
        | none => ([], "error")
    | some _ =>
      match m.cold_start_recommender with
      | some cs =>
        (get_cold_start_recommendations cs none none none exclude_products o.jitters,
         "error_cold_start_fallback")
      | none => ([], "error")
  let m2 := { m with total_recommendations_served := m.total_recommendations_served + 1 }
  let response_products := rs.1.map
    (fun p => RecProduct.mk p.id p.name p.price p.category p.imageUrl)
  (m2,
   { user_id := user_id,
     context := context,
     recommendations := response_products,
     metadata :=
       { recommendation_source := rs.2,
         is_new_user := is_new_user,
         total_recommended_count := response_products.length,
         timestamp := o.timestamp } })

/-! Concrete sample data used to instantiate theorems with hypotheses. -/

/-- A sample catalog product. -/
def productA : Product :=
  { id := "A", name := "Shoe A", description := "", price := 10,
    category := "shoes", brand := "", imageUrl := "" }

/-- A sample catalog product. -/
def productB : Product :=
  { id := "B", name := "Shoe B", description := "", price := 20,
    category := "shoes", brand := "", imageUrl := "" }

/-- A fresh two-arm bandit over `A` and `B`. -/
def banditAB : MultiArmedBandit :=
  { products := [("A", productA), ("B", productB)],
    counts := [0, 0], rewards := [0, 0], total_pulls := 0 }

/-- A two-arm bandit where `A` was pulled once with reward 1 and `B` is
unexplored. -/
def banditABpulled : MultiArmedBandit :=
  { products := [("A", productA), ("B", productB)],
    counts := [1, 0], rewards := [1, 0], total_pulls := 1 }

/-- A two-arm bandit where both arms were pulled once, with rewards 1
and 2. -/
def banditABboth : MultiArmedBandit :=
  { products := [("A", productA), ("B", productB)],
    counts := [1, 1], rewards := [1, 2], total_pulls := 2 }

/-- A sample purchase interaction on product `A`. -/
def interactionA : UserInteraction :=
  { id := "i1", userId := "u1", productId := "A", action := "purchase",
    reward := 1, createdAt := "2024-01-01", product := productA }

/-- A manager with no bandits and no cold-start recommender. -/
def mgrEmpty : BanditManager :=
  { bandits := [], cold_start_recommender := none, total_recommendations_served := 0 }

/-- A manager with no bandits but a cold-start recommender over `A`. -/
def mgrCS : BanditManager :=
  { bandits := [], cold_start_recommender := some (mkColdStart [productA]),
    total_recommendations_served := 7 }

/-- A fixed oracle with empty draw lists and timestamp `t0`. -/
def oracle0 : RecOracle :=
  { jitters := [], rands := [], randss := [], fails := [], ks := [], timestamp := "t0" }

/-! Helper lemmas about the list primitives of the embedding. -/

theorem idxOf?_spec {l : List String} {pid : String} :
    ∀ {i : ℕ}, idxOf? l pid = some i → i < l.length ∧ l.getD i "" = pid := by
  induction l with
  | nil => intro i h; simp [idxOf?] at h
  | cons x xs ih =>
    intro i h
    rw [idxOf?] at h
    split at h
    · cases h
      refine ⟨Nat.succ_pos _, ?_⟩
      simpa using ‹x = pid›
    · obtain ⟨j, hj, rfl⟩ := Option.map_eq_some'.mp h
      obtain ⟨hlt, hget⟩ := ih hj
      exact ⟨Nat.succ_lt_succ hlt, by simpa using hget⟩

theorem argmaxList_lt {α : Type} [LinearOrder α] :
    ∀ (l : List α), l ≠ [] → argmaxList l < l.length
  | [_], _ => by simp [argmaxList]
  | x :: y :: xs, _ => by
    rw [argmaxList]
    split
    · exact Nat.succ_lt_succ (argmaxList_lt (y :: xs) (by simp))
    · simp

theorem getD_le_maxNe {α : Type} [LinearOrder α] (d : α) :
    ∀ (x : α) (l : List α) (i : ℕ), i < (x :: l).length → (x :: l).getD i d ≤ maxNe x l := by
  intro x l
  induction l generalizing x with
  | nil =>
    intro i hi
    match i with
    | 0 => simp [maxNe]
    | i + 1 => simp at hi
  | cons y ys ih =>
    intro i hi
    match i with
    | 0 => simp only [List.getD_cons_zero, maxNe]; exact le_max_left x (maxNe y ys)
    | i + 1 =>
      have := ih y i (by simpa using Nat.lt_of_succ_lt_succ hi)
      calc (x :: y :: ys).getD (i + 1) d = (y :: ys).getD i d := by simp
        _ ≤ maxNe y ys := this
        _ ≤ maxNe x (y :: ys) := by rw [maxNe]; exact le_max_right x (maxNe y ys)

theorem getD_argmaxList {α : Type} [LinearOrder α] (d : α) :
    ∀ (x : α) (l : List α), (x :: l).getD (argmaxList (x :: l)) d = maxNe x l := by
  intro x l
  induction l generalizing x with
  | nil => simp [argmaxList, maxNe]
  | cons y ys ih =>
    rw [argmaxList]
    split
    · have hx : x < maxNe y ys := by assumption
      calc (x :: y :: ys).getD (argmaxList (y :: ys) + 1) d
          = (y :: ys).getD (argmaxList (y :: ys)) d := by simp
        _ = maxNe y ys := ih y
        _ = maxNe x (y :: ys) := by
            rw [maxNe, max_eq_right (le_of_lt hx)]
    · have hx : ¬x < maxNe y ys := by assumption
      have : maxNe x (y :: ys) = x := by
        rw [maxNe, max_eq_left (not_lt.mp hx)]
      simp [this]

theorem getD_argmaxList_ge {α : Type} [LinearOrder α] (d : α) (l : List α) (hne : l ≠ [])
    (i : ℕ) (hi : i < l.length) : l.getD i d ≤ l.getD (argmaxList l) d := by
  match l, hne with
  | x :: xs, _ =>
    rw [getD_argmaxList d x xs]
    exact getD_le_maxNe d x xs i hi

theorem getD_mem {α : Type} {l : List α} {i : ℕ} (d : α) (hi : i < l.length) :
    l.getD i d ∈ l := by
  rw [List.getD_eq_getElem l d hi]
  exact List.getElem_mem hi

theorem getD_not_mem_eraseIdx {l : List ℕ} (hnd : l.Nodup) {i : ℕ} (hi : i < l.length) :
    l.getD i 0 ∉ l.eraseIdx i := by
  intro hmem
  rw [List.getD_eq_getElem l 0 hi, List.mem_eraseIdx_iff_getElem] at hmem
  obtain ⟨j, hjlt, hjne, heq⟩ := hmem
  exact hjne (hnd.getElem_inj_iff.mp heq)

theorem dictFind?_id {d : List (String × Product)}
    (hvals : ∀ kv ∈ d, kv.2.id = kv.1) {pid : String} {p : Product}
    (h : dictFind? d pid = some p) : p.id = pid := by
  induction d with
  | nil => simp [dictFind?] at h
  | cons kv rest ih =>
    rw [dictFind?] at h
    split at h
    · cases h
      rw [hvals kv (by simp)]
      assumption
    · exact ih (fun kv hkv => hvals kv (by simp [hkv])) h

theorem dictFind?_isSome {d : List (String × Product)} {pid : String}
    (h : pid ∈ d.map Prod.fst) : (dictFind? d pid).isSome := by
  induction d with
  | nil => simp at h
  | cons kv rest ih =>
    rw [dictFind?]
    split
    · simp
    · rcases List.mem_map.mp h with ⟨kv2, hkv2, hid⟩
      rcases List.mem_cons.mp hkv2 with h1 | h2
      · subst h1; simp_all
      · exact ih (List.mem_map.mpr ⟨kv2, h2, hid⟩)

/-- The key stored at index `i` of the product dict is the `i`-th
product id. -/
theorem key_getD (b : MultiArmedBandit) {i : ℕ} (hi : i < b.products.length) :
    (b.products.getD i ("", default)).1 = b.product_ids.getD i "" := by
  have hi2 : i < b.product_ids.length := by
    simpa [MultiArmedBandit.product_ids] using hi
  rw [List.getD_eq_getElem _ _ hi, List.getD_eq_getElem _ _ hi2]
  simp [MultiArmedBandit.product_ids]

/-! Every reachable bandit state has a well-formed product dict, so the
`dictWF` hypothesis below covers every prior update history. -/

theorem dictInsert_wf (d : List (String × Product)) (p : Product) (h : dictWF d) :
    dictWF (dictInsert d p) := by
  obtain ⟨h1, h2⟩ := h
  unfold dictInsert
  split
  · constructor
    · have hkeys : (d.map (fun kv => if kv.1 = p.id then (kv.1, p) else kv)).map Prod.fst
          = d.map Prod.fst := by
        rw [List.map_map]
        apply List.map_congr_left
        intro kv _
        by_cases hkv : kv.1 = p.id <;> simp [hkv]
      rw [hkeys]
      exact h1
    · intro kv hkv
      obtain ⟨kv0, hkv0, heq⟩ := List.mem_map.mp hkv
      by_cases hk : kv0.1 = p.id
      · rw [← heq]
        simp [hk]
      · rw [← heq]
        simp only [if_neg hk]
        exact h2 kv0 hkv0
  · rename_i hnot
    have hnotin : p.id ∉ d.map Prod.fst := by
      intro hmem
      obtain ⟨kv, hkv, hid⟩ := List.mem_map.mp hmem
      exact hnot (List.any_eq_true.mpr ⟨kv, hkv, by simp [hid]⟩)
    constructor
    · rw [List.map_append]
      rw [List.nodup_append]
      refine ⟨h1, by simp, ?_⟩
      intro a ha hb
      simp at hb
      rw [hb] at ha
      exact hnotin ha
    · intro kv hkv
      rcases List.mem_append.mp hkv with hd | hp
      · exact h2 kv hd
      · simp at hp
        rw [hp]

theorem dictFromList_wf (ps : List Product) : dictWF (dictFromList ps) := by
  unfold dictFromList
  have h : ∀ (qs : List Product) (acc : List (String × Product)),
      dictWF acc → dictWF (qs.foldl dictInsert acc) := by
    intro qs
    induction qs with
    | nil => intro acc hacc; exact hacc
    | cons q rest ih =>
      intro acc hacc
      rw [List.foldl_cons]
      exact ih _ (dictInsert_wf acc q hacc)
  exact h ps [] ⟨by simp, by simp⟩

theorem mkBandit_wf {ps : List Product} {b : MultiArmedBandit}
    (h : mkBandit ps = some b) : dictWF b.products := by
  unfold mkBandit at h
  simp only [] at h
  split at h
  · cases h
  · cases h
    exact dictFromList_wf ps

/-! Bounds on the two selection policies. -/

theorem egSelectArm_lt (e : ℚ) (b : MultiArmedBandit) (r : Draw)
    (hn : b.n_arms ≠ 0) (hc : b.counts.length = b.n_arms)
    (hr : b.rewards.length = b.n_arms) :
    egSelectArm e b r < b.n_arms := by
  have hpos : 0 < b.n_arms := Nat.pos_of_ne_zero hn
  unfold egSelectArm
  split
  · exact Nat.mod_lt _ hpos
  · split
    · have hlen : (avgRewards b.rewards b.counts).length = b.n_arms := by
        simp [avgRewards, hc, hr]
      have hne : avgRewards b.rewards b.counts ≠ [] := by
        intro h0
        rw [h0] at hlen
        simp at hlen
        exact hn hlen.symm
      calc argmaxList (avgRewards b.rewards b.counts)
          < (avgRewards b.rewards b.counts).length := argmaxList_lt _ hne
        _ = b.n_arms := hlen
    · exact Nat.mod_lt _ hpos

theorem ucbSelectArm_bounds (c : ℚ) (b : MultiArmedBandit) (r : Draw)
    (hn : b.n_arms ≠ 0) :
    0 ≤ ucbSelectArm c b r ∧ (ucbSelectArm c b r).toNat < b.n_arms := by
  unfold ucbSelectArm
  rw [if_neg hn]
  simp only []
  split
  · -- an unpulled arm exists: the choice is a member of the filtered range
    rename_i hlen
    set unpulled := (List.range b.n_arms).filter (fun i => decide (b.counts.getD i 0 = 0))
      with hunp
    have hklt : r.k % unpulled.length < unpulled.length :=
      Nat.mod_lt _ (Nat.pos_of_ne_zero hlen)
    have hmem : unpulled.getD (r.k % unpulled.length) 0 ∈ unpulled := getD_mem 0 hklt
    have hrange : unpulled.getD (r.k % unpulled.length) 0 ∈ List.range b.n_arms :=
      List.mem_of_mem_filter hmem
    have := List.mem_range.mp hrange
    exact ⟨Int.natCast_nonneg _, by simpa using this⟩
  · -- all arms pulled: argmax over the UCB values
    have hlen : (ucbValues c b).length = b.n_arms := by
      simp [ucbValues]
    have hne : ucbValues c b ≠ [] := by
      intro h0
      rw [h0] at hlen
      simp at hlen
      exact hn hlen.symm
    have := argmaxList_lt (ucbValues c b) hne
    rw [hlen] at this
    exact ⟨Int.natCast_nonneg _, by simpa using this⟩

theorem select_arm_bounds (bt : BType) (b : MultiArmedBandit) (r : Draw)
    (hn : b.n_arms ≠ 0) (hc : b.counts.length = b.n_arms)
    (hr : b.rewards.length = b.n_arms) :
    0 ≤ select_arm bt b r ∧ (select_arm bt b r).toNat < b.n_arms := by
  cases bt with
  | epsilon_greedy e =>
    have := egSelectArm_lt e b r hn hc hr
    exact ⟨Int.natCast_nonneg _, by simpa using this⟩
  | ucb c => exact ucbSelectArm_bounds c b r hn

/-! The diversity loop invariant. -/

theorem firstNanIdx?_lt :
    ∀ (l : List NpVal) {i : ℕ}, firstNanIdx? l = some i → i < l.length := by
  intro l
  induction l with
  | nil => intro i h; simp [firstNanIdx?] at h
  | cons v rest ih =>
    intro i h
    cases v with
    | nan =>
      cases (h : (some 0 : Option ℕ) = some i)
      simp
    | pinf =>
      obtain ⟨j, hj, rfl⟩ :=
        Option.map_eq_some'.mp (h : (firstNanIdx? rest).map (· + 1) = some i)
      exact Nat.succ_lt_succ (ih hj)
    | ninf =>
      obtain ⟨j, hj, rfl⟩ :=
        Option.map_eq_some'.mp (h : (firstNanIdx? rest).map (· + 1) = some i)
      exact Nat.succ_lt_succ (ih hj)
    | fin x =>
      obtain ⟨j, hj, rfl⟩ :=
        Option.map_eq_some'.mp (h : (firstNanIdx? rest).map (· + 1) = some i)
      exact Nat.succ_lt_succ (ih hj)

theorem argmaxNp_lt (l : List NpVal) (hne : l ≠ []) : argmaxNp l < l.length := by
  unfold argmaxNp
  cases hfn : firstNanIdx? l with
  | some i => exact firstNanIdx?_lt l hfn
  | none =>
    have hmapne : l.map NpVal.toEReal ≠ [] := by simpa using hne
    have := argmaxList_lt (l.map NpVal.toEReal) hmapne
    simpa using this

theorem collectVals_length (cl : ℚ) (b : MultiArmedBandit) :
    ∀ (is : List ℕ) (vs : List NpVal),
      collectVals cl b is = Except.ok vs → vs.length = is.length := by
  intro is
  induction is with
  | nil =>
    intro vs h
    rw [collectVals] at h
    cases h
    rfl
  | cons i rest ih =>
    intro vs h
    rw [collectVals] at h
    split at h
    · cases h
    · split at h
      · cases h
      · cases h
        rename_i v hv vs2 hr
        simpa using ih vs2 hr

theorem selectArmTemp_ok_bounds (bt : BType) (b : MultiArmedBandit) (r : Draw) (sel : ℤ)
    (hn : b.n_arms ≠ 0) (h : selectArmTemp bt b r = Except.ok sel) :
    0 ≤ sel ∧ sel.toNat < b.n_arms := by
  cases bt with
  | epsilon_greedy e =>
    simp only [selectArmTemp] at h
    split at h
    · cases h
    · cases h
      rename_i n hn2
      unfold egSelectArmTemp at hn2
      split at hn2
      · cases hn2
        exact ⟨Int.natCast_nonneg _, by simpa using Nat.mod_lt _ (Nat.pos_of_ne_zero hn)⟩
      · cases hn2
  | ucb c =>
    simp only [selectArmTemp] at h
    unfold ucbSelectArmTemp at h
    rw [if_neg hn] at h
    split at h
    · cases h
    · cases h
      rename_i vals hvals
      have hlen : vals.length = b.n_arms := by
        simpa using collectVals_length c b (List.range b.n_arms) vals hvals
      have hvne : vals ≠ [] := by
        intro h0
        rw [h0] at hlen
        simp at hlen
        exact hn hlen.symm
      refine ⟨Int.natCast_nonneg _, ?_⟩
      have := argmaxNp_lt vals hvne
      rw [hlen] at this
      simpa using this

theorem selectLoop_spec (bt : BType) (b : MultiArmedBandit)
    (hkeys : (b.products.map Prod.fst).Nodup) :
    ∀ (fuel : ℕ) (avail : List ℕ) (rands : List Draw) (ids : List String),
      avail.Nodup → (∀ i ∈ avail, i < b.n_arms) →
      selectLoop bt b fuel avail rands = Except.ok ids →
      ids.Nodup ∧
      (∀ pid ∈ ids, ∃ i ∈ avail, (b.products.getD i ("", default)).1 = pid) := by
  intro fuel
  induction fuel with
  | zero =>
    intro avail rands ids _ _ h
    rw [selectLoop] at h
    cases h
    simp
  | succ fuel ih =>
    intro avail rands ids hnd hlt h
    rw [selectLoop] at h
    by_cases hav : avail = []
    · rw [if_pos hav] at h
      cases h
      simp
    · rw [if_neg hav] at h
      split at h
      · cases h
      · rename_i sel hsel
        have htn : (mkTempBandit b avail).n_arms = avail.length := by
          simp [mkTempBandit, MultiArmedBandit.n_arms]
        have hne0 : (mkTempBandit b avail).n_arms ≠ 0 := by
          rw [htn]
          simpa using hav
        have hbounds := selectArmTemp_ok_bounds bt.withDefaults (mkTempBandit b avail)
          (rands.headD default) sel hne0 hsel
        have hselne : ¬sel = -1 := by
          intro h0
          rw [h0] at hbounds
          exact absurd hbounds.1 (by norm_num)
        rw [if_neg hselne] at h
        split at h
        · cases h
        · cases h
          rename_i rest hrec
          have hselN : sel.toNat < avail.length := by
            have := hbounds.2
            rwa [htn] at this
          have horig_mem : avail.getD sel.toNat 0 ∈ avail := getD_mem 0 hselN
          have horig_lt : avail.getD sel.toNat 0 < b.n_arms := hlt _ horig_mem
          have hsub := List.eraseIdx_sublist avail sel.toNat
          have hnd2 : (avail.eraseIdx sel.toNat).Nodup := hnd.sublist hsub
          have hlt2 : ∀ i ∈ avail.eraseIdx sel.toNat, i < b.n_arms :=
            fun i hi => hlt i (hsub.mem hi)
          obtain ⟨ihnd, ihmem⟩ := ih (avail.eraseIdx sel.toNat) rands.tail rest hnd2 hlt2 hrec
          constructor
          · refine List.nodup_cons.mpr ⟨?_, ihnd⟩
            intro hmem
            obtain ⟨i, hi_mem, hi_key⟩ := ihmem _ hmem
            have hi_lt : i < b.n_arms := hlt2 i hi_mem
            have h1 : b.product_ids.getD i "" =
                b.product_ids.getD (avail.getD sel.toNat 0) "" := by
              rw [← key_getD b hi_lt, ← key_getD b horig_lt, hi_key]
            have hlen_i : i < b.product_ids.length := by
              simpa [MultiArmedBandit.product_ids, MultiArmedBandit.n_arms] using hi_lt
            have hlen_o : avail.getD sel.toNat 0 < b.product_ids.length := by
              simpa [MultiArmedBandit.product_ids, MultiArmedBandit.n_arms] using horig_lt
            rw [List.getD_eq_getElem _ _ hlen_i, List.getD_eq_getElem _ _ hlen_o] at h1
            have hkeys2 : b.product_ids.Nodup := hkeys
            have : i = avail.getD sel.toNat 0 := hkeys2.getElem_inj_iff.mp h1
            subst this
            exact getD_not_mem_eraseIdx hnd hselN hi_mem
          · intro pid hpid
            rcases List.mem_cons.mp hpid with h1 | h2
            · exact ⟨avail.getD sel.toNat 0, horig_mem, h1.symm⟩
            · obtain ⟨i, hi_mem, hi_key⟩ := ihmem _ h2
              exact ⟨i, hsub.mem hi_mem, hi_key⟩

/-- C1: for every bandit class (epsilon-greedy or UCB), every `n`,
every exclusion list, every well-formed bandit state (hence every prior
`update`/`update_rewards` history) and every sequence of random draws,
whenever `select_products` returns a list (rather than propagating a
temp-bandit exception) that list has no duplicate product id and no id
from the exclusion list. -/
theorem select_products_no_duplicates_no_excluded (bt : BType) (b : MultiArmedBandit)
    (hw : dictWF b.products) (n_products : ℕ) (exclude_products : List String)
    (rands : List Draw) (l : List Product)
    (h : select_products bt b n_products exclude_products rands = Except.ok l) :
    (l.map Product.id).Nodup ∧ ∀ p ∈ l, p.id ∉ exclude_products := by
  unfold select_products at h
  simp only [] at h
  set avail := (List.range b.n_arms).filter
    (fun i => decide ((b.products.getD i ("", default)).1 ∉ exclude_products)) with havail
  by_cases hav : avail = []
  · rw [if_pos hav] at h
    cases h
    simp
  · rw [if_neg hav] at h
    cases hloop : selectLoop bt b avail.length avail rands with
    | error e =>
      rw [hloop] at h
      simp [Except.map] at h
    | ok ids =>
      rw [hloop] at h
      simp only [Except.map] at h
      cases h
      have hnodup : avail.Nodup := List.Nodup.filter _ (List.nodup_range _)
      have hltn : ∀ i ∈ avail, i < b.n_arms := by
        intro i hi
        exact List.mem_range.mp (List.mem_of_mem_filter hi)
      have hexcl : ∀ i ∈ avail, (b.products.getD i ("", default)).1 ∉ exclude_products := by
        intro i hi
        have := List.of_mem_filter hi
        exact of_decide_eq_true this
      obtain ⟨hids_nodup, hids_mem⟩ :=
        selectLoop_spec bt b hw.1 avail.length avail rands ids hnodup hltn hloop
      have hkey : ∀ pid ∈ ids,
          ((dictFind? b.products pid).getD default).id = pid ∧ pid ∉ exclude_products := by
        intro pid hpid
        obtain ⟨i, hi_mem, hi_key⟩ := hids_mem pid hpid
        have hi_lt : i < b.n_arms := hltn i hi_mem
        have hpid_mem : pid ∈ b.products.map Prod.fst := by
          rw [← hi_key, key_getD b hi_lt]
          exact getD_mem ""
            (by simpa [MultiArmedBandit.product_ids, MultiArmedBandit.n_arms] using hi_lt)
        obtain ⟨p, hp⟩ := Option.isSome_iff_exists.mp (dictFind?_isSome hpid_mem)
        refine ⟨?_, by rw [← hi_key]; exact hexcl i hi_mem⟩
        rw [hp]
        simpa using dictFind?_id hw.2 hp
      constructor
      · have hmap : (ids.map (fun pid => (dictFind? b.products pid).getD default)).map
            Product.id = ids.map (fun pid => pid) := by
          rw [List.map_map]
          exact List.map_congr_left (fun pid hpid => (hkey pid hpid).1)
        rw [hmap, List.map_id']
        exact hids_nodup
      · intro p hp
        obtain ⟨pid, hpid_mem, hpid_eq⟩ := List.mem_map.mp hp
        rw [← hpid_eq]
        rw [(hkey pid hpid_mem).1]
        exact (hkey pid hpid_mem).2

/-- Witness for C1 at a concrete fresh epsilon-greedy bandit, on
all-explore draws (u = 0), where the call returns normally. -/
theorem select_products_no_duplicates_no_excluded_witness :
    (dictWF banditAB.products ∧
      select_products (.epsilon_greedy defaultEpsilon) banditAB 5 ["X"] [⟨0, 0⟩, ⟨0, 0⟩]
        = Except.ok [productA, productB]) ∧
    (([productA, productB].map Product.id).Nodup ∧
      ∀ p ∈ [productA, productB], p.id ∉ ["X"]) :=
  ⟨⟨by decide, by rfl⟩,
   select_products_no_duplicates_no_excluded (.epsilon_greedy defaultEpsilon) banditAB
     (by decide) 5 ["X"] [⟨0, 0⟩, ⟨0, 0⟩] [productA, productB] (by rfl)⟩

/-- When the diversity loop returns normally it has run `fuel` rounds
or until the available arms ran out: the result length is
`min fuel (len available)`. -/
theorem selectLoop_ok_length (bt : BType) (b : MultiArmedBandit) :
    ∀ (fuel : ℕ) (avail : List ℕ) (rands : List Draw) (ids : List String),
      selectLoop bt b fuel avail rands = Except.ok ids →
      ids.length = min fuel avail.length := by
  intro fuel
  induction fuel with
  | zero =>
    intro avail rands ids h
    rw [selectLoop] at h
    cases h
    simp
  | succ fuel ih =>
    intro avail rands ids h
    rw [selectLoop] at h
    by_cases hav : avail = []
    · rw [if_pos hav] at h
      cases h
      simp [hav]
    · rw [if_neg hav] at h
      split at h
      · cases h
      · rename_i sel hsel
        have htn : (mkTempBandit b avail).n_arms = avail.length := by
          simp [mkTempBandit, MultiArmedBandit.n_arms]
        have hne0 : (mkTempBandit b avail).n_arms ≠ 0 := by
          rw [htn]
          simpa using hav
        have hbounds := selectArmTemp_ok_bounds bt.withDefaults (mkTempBandit b avail)
          (rands.headD default) sel hne0 hsel
        have hselne : ¬sel = -1 := by
          intro h0
          rw [h0] at hbounds
          exact absurd hbounds.1 (by norm_num)
        rw [if_neg hselne] at h
        split at h
        · cases h
        · cases h
          rename_i rest hrec
          have hselN : sel.toNat < avail.length := by
            have := hbounds.2
            rwa [htn] at this
          have hrest := ih (avail.eraseIdx sel.toNat) rands.tail rest hrec
          simp only [List.length_cons]
          rw [hrest, List.length_eraseIdx_of_lt hselN]
          have : avail.length ≠ 0 := by simpa [List.length_eq_zero] using hav
          omega

/-- When `select_products` returns normally it returns one product per
available (non-excluded) arm, whatever `n_products` is. -/
theorem select_products_ok_length (bt : BType) (b : MultiArmedBandit)
    (n_products : ℕ) (exclude_products : List String) (rands : List Draw)
    (l : List Product)
    (h : select_products bt b n_products exclude_products rands = Except.ok l) :
    l.length =
      ((List.range b.n_arms).filter
        (fun i => decide ((b.products.getD i ("", default)).1 ∉ exclude_products))).length := by
  unfold select_products at h
  simp only [] at h
  set avail := (List.range b.n_arms).filter
    (fun i => decide ((b.products.getD i ("", default)).1 ∉ exclude_products)) with havail
  by_cases hav : avail = []
  · rw [if_pos hav] at h
    cases h
    simp [hav]
  · rw [if_neg hav] at h
    cases hloop : selectLoop bt b avail.length avail rands with
    | error e =>
      rw [hloop] at h
      simp [Except.map] at h
    | ok ids =>
      rw [hloop] at h
      simp only [Except.map] at h
      cases h
      rw [List.length_map, selectLoop_ok_length bt b avail.length avail rands ids hloop]
      omega

/-- C2 fails on the code: `select_products` sets
`num_to_select = len(available_arms_indices)` — ignoring `n_products`
and contradicting its own comment "up to n_products or available" — so
with two available arms, `n_products = 1` and all-explore draws it
returns 2 products (on exploit draws it instead raises the temp-bandit
`TypeError`, so the bug shows on the explore path). -/
theorem select_products_ignores_n_products :
    select_products (.epsilon_greedy defaultEpsilon) banditAB 1 [] [⟨0, 0⟩, ⟨0, 0⟩]
      = Except.ok [productA, productB] := by
  rfl


/-! Statistics invariants: C3 and C8. -/

theorem sum_set_getD_add (v : ℕ) :
    ∀ (l : List ℕ) (i : ℕ), i < l.length → (l.set i (l.getD i 0 + v)).sum = l.sum + v := by
  intro l
  induction l with
  | nil => intro i hi; simp at hi
  | cons x xs ih =>
    intro i hi
    match i with
    | 0 => simp [Nat.add_right_comm]
    | i + 1 =>
      have h := ih i (by simpa using Nat.lt_of_succ_lt_succ hi)
      show (x :: xs.set i (xs.getD i 0 + v)).sum = (x :: xs).sum + v
      simp only [List.sum_cons, h]
      omega

/-- `update_rewards` writes count/reward lists of the arm-set length. -/
theorem update_rewards_counts_length (b : MultiArmedBandit) (xs : List UserInteraction) :
    (update_rewards b xs).counts.length = b.n_arms := by
  unfold update_rewards
  simp only []
  have h : ∀ (g : List (String × List UserInteraction)) (acc : List ℕ × List ℚ),
      ((g.foldl (fun (cr : List ℕ × List ℚ) kv =>
        match idxOf? b.product_ids kv.1 with
        | some arm_idx =>
          (cr.1.set arm_idx kv.2.length, cr.2.set arm_idx (score_product kv.1 kv.2))
        | none => cr) acc).1).length = acc.1.length := by
    intro g
    induction g with
    | nil => intro acc; rfl
    | cons kv rest ih =>
      intro acc
      rw [List.foldl_cons, ih]
      cases hidx : idxOf? b.product_ids kv.1 <;> simp [hidx]
  rw [h]
  simp

/-- The bandit operations never change the arm set. -/
theorem applyOp_products (b : MultiArmedBandit) (op : BanditOp) :
    (applyOp b op).products = b.products := by
  cases op with
  | update pid r =>
    show (update b pid r).products = b.products
    unfold update
    cases idxOf? b.product_ids pid <;> rfl
  | update_rewards xs => rfl
  | reset => rfl

theorem applyOps_products (b : MultiArmedBandit) (ops : List BanditOp) :
    (applyOps b ops).products = b.products := by
  induction ops generalizing b with
  | nil => rfl
  | cons op rest ih =>
    show (applyOps (applyOp b op) rest).products = b.products
    rw [ih, applyOp_products]

/-- Any state reached from the constructor by `update`,
`update_rewards` and `reset` operations keeps a well-formed product
dict, so the `dictWF` hypothesis of the C1 theorem covers every prior
update history. -/
theorem reachable_dictWF {ps : List Product} {b0 : MultiArmedBandit}
    (h0 : mkBandit ps = some b0) (ops : List BanditOp) :
    dictWF (applyOps b0 ops).products := by
  rw [applyOps_products]
  exact mkBandit_wf h0

/-- One operation preserves `counts`-length agreement and the
`total_pulls = sum counts` invariant. -/
theorem applyOp_inv (b : MultiArmedBandit) (op : BanditOp)
    (h1 : b.counts.length = b.n_arms) (h2 : b.total_pulls = b.counts.sum) :
    (applyOp b op).counts.length = (applyOp b op).n_arms ∧
    (applyOp b op).total_pulls = (applyOp b op).counts.sum := by
  have hn : (applyOp b op).n_arms = b.n_arms := by
    unfold MultiArmedBandit.n_arms
    rw [applyOp_products]
  rw [hn]
  cases op with
  | update pid r =>
    show (update b pid r).counts.length = b.n_arms ∧
      (update b pid r).total_pulls = (update b pid r).counts.sum
    unfold update
    cases hidx : idxOf? b.product_ids pid with
    | none => exact ⟨h1, h2⟩
    | some arm_idx =>
      obtain ⟨hlt, _⟩ := idxOf?_spec hidx
      have hlt2 : arm_idx < b.counts.length := by
        rw [h1]
        simpa [MultiArmedBandit.product_ids, MultiArmedBandit.n_arms] using hlt
      constructor
      · simpa using h1
      · simp only []
        rw [sum_set_getD_add 1 b.counts arm_idx hlt2, h2]
  | update_rewards xs =>
    exact ⟨update_rewards_counts_length b xs, rfl⟩
  | reset =>
    show (reset b).counts.length = b.n_arms ∧ (reset b).total_pulls = (reset b).counts.sum
    unfold reset
    simp

/-- C3: for every bandit built by the constructor and every sequence of
`update` / `update_rewards` / `reset` operations, `total_pulls` equals
the sum of the per-arm counts exactly. -/
theorem total_pulls_eq_sum_counts (ps : List Product) (b0 : MultiArmedBandit)
    (h0 : mkBandit ps = some b0) (ops : List BanditOp) :
    (applyOps b0 ops).total_pulls = (applyOps b0 ops).counts.sum := by
  have hbase : b0.counts.length = b0.n_arms ∧ b0.total_pulls = b0.counts.sum := by
    unfold mkBandit at h0
    simp only [] at h0
    split at h0
    · cases h0
    · cases h0
      constructor
      · simp [MultiArmedBandit.n_arms]
      · simp [List.sum_replicate]
  suffices h : ∀ (ops : List BanditOp) (b : MultiArmedBandit),
      b.counts.length = b.n_arms → b.total_pulls = b.counts.sum →
      (applyOps b ops).counts.length = (applyOps b ops).n_arms ∧
      (applyOps b ops).total_pulls = (applyOps b ops).counts.sum by
    exact (h ops b0 hbase.1 hbase.2).2
  intro ops
  induction ops with
  | nil => intro b hb1 hb2; exact ⟨hb1, hb2⟩
  | cons op rest ih =>
    intro b hb1 hb2
    have hstep := applyOp_inv b op hb1 hb2
    exact ih (applyOp b op) hstep.1 hstep.2

/-- Witness for C3: a concrete constructor call and operation sequence,
including an unknown-product update, a bulk recompute and a reset. -/
theorem total_pulls_eq_sum_counts_witness :
    mkBandit [productA, productB] = some banditAB ∧
    ((applyOps banditAB [.update "A" 1, .update "Z" 2,
        .update_rewards [interactionA, interactionA], .update "B" (-1)]).total_pulls =
      (applyOps banditAB [.update "A" 1, .update "Z" 2,
        .update_rewards [interactionA, interactionA], .update "B" (-1)]).counts.sum) :=
  ⟨by decide,
   total_pulls_eq_sum_counts [productA, productB] banditAB (by decide)
     [.update "A" 1, .update "Z" 2,
      .update_rewards [interactionA, interactionA], .update "B" (-1)]⟩

/-- `update_rewards` reads only the arm set, so two bandits with the
same products produce the same recomputed state. -/
theorem update_rewards_eq_of_products_eq {b1 b2 : MultiArmedBandit}
    (xs : List UserInteraction) (h : b1.products = b2.products) :
    update_rewards b1 xs = update_rewards b2 xs := by
  cases b1 with
  | mk p1 c1 r1 t1 =>
    cases b2 with
    | mk p2 c2 r2 t2 =>
      simp only [MultiArmedBandit.products] at h
      subst h
      rfl

/-- C8: a second `update_rewards` with the same interaction list leaves
the whole state (counts, rewards, total_pulls — and the arm set)
exactly as after the first call: the full recompute is idempotent. -/
theorem update_rewards_idempotent (b : MultiArmedBandit) (xs : List UserInteraction) :
    update_rewards (update_rewards b xs) xs = update_rewards b xs :=
  update_rewards_eq_of_products_eq xs rfl

/-! C4: UCB always selects an unpulled arm when one exists. -/

/-- C4: whenever the arm set is non-empty and some arm has count 0,
`UCBBandit.select_arm` returns an arm with count 0, for every random
draw and regardless of the other arms' statistics. -/
theorem ucb_selects_unpulled (c : ℚ) (b : MultiArmedBandit) (r : Draw)
    (hn : b.n_arms ≠ 0) (hex : ∃ i, i < b.n_arms ∧ b.counts.getD i 0 = 0) :
    ∃ i : ℕ, ucbSelectArm c b r = (i : ℤ) ∧ i < b.n_arms ∧ b.counts.getD i 0 = 0 := by
  obtain ⟨i0, hi0_lt, hi0_zero⟩ := hex
  unfold ucbSelectArm
  rw [if_neg hn]
  simp only []
  set unpulled := (List.range b.n_arms).filter (fun i => decide (b.counts.getD i 0 = 0))
    with hunp
  have hi0_mem : i0 ∈ unpulled := by
    rw [hunp]
    exact List.mem_filter.mpr ⟨List.mem_range.mpr hi0_lt, decide_eq_true hi0_zero⟩
  have hlen : unpulled.length ≠ 0 := by
    intro h0
    rw [List.length_eq_zero] at h0
    rw [h0] at hi0_mem
    simp at hi0_mem
  rw [if_pos hlen]
  have hklt : r.k % unpulled.length < unpulled.length := Nat.mod_lt _ (Nat.pos_of_ne_zero hlen)
  have hmem : unpulled.getD (r.k % unpulled.length) 0 ∈ unpulled := getD_mem 0 hklt
  have hfil := List.mem_filter.mp hmem
  exact ⟨unpulled.getD (r.k % unpulled.length) 0, rfl,
    List.mem_range.mp hfil.1, of_decide_eq_true hfil.2⟩

/-- Witness for C4: arm `B` of `banditABpulled` is unexplored while arm
`A` has a pull, and UCB returns an unexplored arm. -/
theorem ucb_selects_unpulled_witness :
    (banditABpulled.n_arms ≠ 0 ∧
      ∃ i, i < banditABpulled.n_arms ∧ banditABpulled.counts.getD i 0 = 0) ∧
    ∃ i : ℕ, ucbSelectArm 2 banditABpulled ⟨0, 0⟩ = (i : ℤ) ∧
      i < banditABpulled.n_arms ∧ banditABpulled.counts.getD i 0 = 0 :=
  ⟨⟨by decide, ⟨1, by decide⟩⟩,
   ucb_selects_unpulled 2 banditABpulled ⟨0, 0⟩ (by decide) ⟨1, by decide⟩⟩

/-! C6: the epsilon-greedy extremes. -/

/-- C6: with `epsilon = 0` and every arm pulled at least once,
`select_arm` deterministically (for every `u ≥ 0` and every integer
draw) returns the argmax of the average rewards — an in-range index
whose average reward is maximal; with `epsilon = 1` (and any draw
`u < 1`) it returns the uniform integer draw itself, so it is the
uniform random draw over all arm indices. -/
theorem epsilon_greedy_extremes (b : MultiArmedBandit)
    (hn : b.n_arms ≠ 0) (hc : b.counts.length = b.n_arms)
    (hr : b.rewards.length = b.n_arms) :
    (∀ u k, 0 ≤ u → (∀ i, i < b.n_arms → 1 ≤ b.counts.getD i 0) →
      egSelectArm 0 b ⟨u, k⟩ = argmaxList (avgRewards b.rewards b.counts) ∧
      egSelectArm 0 b ⟨u, k⟩ < b.n_arms ∧
      ∀ i, i < b.n_arms →
        (avgRewards b.rewards b.counts).getD i 0 ≤
          (avgRewards b.rewards b.counts).getD (egSelectArm 0 b ⟨u, k⟩) 0) ∧
    (∀ u k, u < 1 → k < b.n_arms → egSelectArm 1 b ⟨u, k⟩ = k) := by
  have hlen : (avgRewards b.rewards b.counts).length = b.n_arms := by
    simp [avgRewards, hc, hr]
  have hne : avgRewards b.rewards b.counts ≠ [] := by
    intro h0
    rw [h0] at hlen
    simp at hlen
    exact hn hlen.symm
  constructor
  · intro u k hu hall
    have hnotlt : ¬u < 0 := not_lt.mpr hu
    have hany : b.counts.any (fun c => decide (0 < c)) = true := by
      rw [List.any_eq_true]
      have hpos : 0 < b.counts.length := by
        rw [hc]
        exact Nat.pos_of_ne_zero hn
      refine ⟨b.counts.getD 0 0, getD_mem 0 hpos, ?_⟩
      have := hall 0 (Nat.pos_of_ne_zero hn)
      exact decide_eq_true (by omega)
    have hsel : egSelectArm 0 b ⟨u, k⟩ = argmaxList (avgRewards b.rewards b.counts) := by
      unfold egSelectArm
      rw [if_neg hnotlt, if_pos hany]
    refine ⟨hsel, ?_, ?_⟩
    · exact egSelectArm_lt 0 b ⟨u, k⟩ hn hc hr
    · intro i hi
      rw [hsel]
      exact getD_argmaxList_ge 0 (avgRewards b.rewards b.counts) hne i (by rw [hlen]; exact hi)
  · intro u k hu hk
    unfold egSelectArm
    rw [if_pos hu]
    exact Nat.mod_eq_of_lt hk

/-- Witness for C6 at a concrete two-arm bandit with both arms pulled:
`epsilon = 0` returns the argmax, `epsilon = 1` echoes the uniform
draw. -/
theorem epsilon_greedy_extremes_witness :
    ((0 : ℚ) ≤ 0 ∧ (∀ i, i < banditABboth.n_arms → 1 ≤ banditABboth.counts.getD i 0) ∧
      (0 : ℚ) < 1 ∧ 1 < banditABboth.n_arms) ∧
    egSelectArm 0 banditABboth ⟨0, 0⟩ =
      argmaxList (avgRewards banditABboth.rewards banditABboth.counts) ∧
    egSelectArm 1 banditABboth ⟨0, 1⟩ = 1 :=
  ⟨⟨by decide, by decide, by decide, by decide⟩,
   ((epsilon_greedy_extremes banditABboth (by decide) (by decide) (by decide)).1
      0 0 (by decide) (by decide)).1,
   (epsilon_greedy_extremes banditABboth (by decide) (by decide) (by decide)).2
      0 1 (by decide) (by decide)⟩

/-! C5: the product-stats snapshot ordering. -/

theorem mem_insertStatDesc {x a : ProductStat} :
    ∀ {l : List ProductStat}, a ∈ insertStatDesc x l ↔ a = x ∨ a ∈ l := by
  intro l
  induction l with
  | nil => simp [insertStatDesc]
  | cons y ys ih =>
    rw [insertStatDesc]
    split
    · simp
    · simp only [List.mem_cons, ih]
      tauto

theorem insertStatDesc_sorted (x : ProductStat) :
    ∀ (l : List ProductStat),
      l.Pairwise (fun a c => c.priority_score ≤ a.priority_score) →
      (insertStatDesc x l).Pairwise (fun a c => c.priority_score ≤ a.priority_score) := by
  intro l
  induction l with
  | nil => intro _; simp [insertStatDesc]
  | cons y ys ih =>
    intro h
    rw [List.pairwise_cons] at h
    rw [insertStatDesc]
    split
    · rename_i hle
      rw [List.pairwise_cons]
      refine ⟨?_, List.pairwise_cons.mpr h⟩
      intro z hz
      rcases List.mem_cons.mp hz with rfl | hz2
      · exact hle
      · exact le_trans (h.1 z hz2) hle
    · rename_i hgt
      rw [List.pairwise_cons]
      refine ⟨?_, ih h.2⟩
      intro z hz
      rcases mem_insertStatDesc.mp hz with rfl | hz2
      · exact le_of_lt (not_le.mp hgt)
      · exact h.1 z hz2

theorem sortStatsDesc_sorted :
    ∀ (l : List ProductStat),
      (sortStatsDesc l).Pairwise (fun a c => c.priority_score ≤ a.priority_score)
  | [] => by simp [sortStatsDesc]
  | x :: xs => by
    rw [sortStatsDesc]
    exact insertStatDesc_sorted x _ (sortStatsDesc_sorted xs)

theorem mem_sortStatsDesc {a : ProductStat} :
    ∀ {l : List ProductStat}, a ∈ sortStatsDesc l ↔ a ∈ l := by
  intro l
  induction l with
  | nil => simp [sortStatsDesc]
  | cons x xs ih =>
    rw [sortStatsDesc]
    rw [mem_insertStatDesc]
    simp [ih]

/-- C5 fails on the code: `get_product_stats` gives an unexplored arm
priority `0.0` (not plus-infinity), so with arm `A` pulled once with
reward 1 and arm `B` unexplored the snapshot lists the explored arm
first: the claim that every unexplored arm appears before any explored
arm is false at this input. -/
theorem get_product_stats_unexplored_not_first :
    get_product_stats banditABpulled =
      [{ product_id := "A", product_name := "Shoe A", category := "shoes",
         interaction_count := 1, average_reward := 1, priority_score := 1 },
       { product_id := "B", product_name := "Shoe B", category := "shoes",
         interaction_count := 0, average_reward := 0, priority_score := 0 }] ∧
    ¬(∀ s ∈ get_product_stats banditABpulled, ∀ t ∈ get_product_stats banditABpulled,
        s.interaction_count = 0 → 0 < t.interaction_count →
        t.priority_score ≤ s.priority_score) := by
  have hstats : get_product_stats banditABpulled =
      [{ product_id := "A", product_name := "Shoe A", category := "shoes",
         interaction_count := 1, average_reward := 1, priority_score := 1 },
       { product_id := "B", product_name := "Shoe B", category := "shoes",
         interaction_count := 0, average_reward := 0, priority_score := 0 }] := by
    show sortStatsDesc _ = _
    norm_num [get_product_stats, banditABpulled, productA, productB, List.range_succ,
      sortStatsDesc, insertStatDesc]
  refine ⟨hstats, ?_⟩
  intro hall
  have := hall
    { product_id := "B", product_name := "Shoe B", category := "shoes",
      interaction_count := 0, average_reward := 0, priority_score := 0 }
    (by rw [hstats]; simp)
    { product_id := "A", product_name := "Shoe A", category := "shoes",
      interaction_count := 1, average_reward := 1, priority_score := 1 }
    (by rw [hstats]; simp)
    rfl (by norm_num)
  norm_num at this

/-- C5 amended: `get_product_stats` is sorted by priority score
descending (stably), where the priority of each arm equals its average
reward and an unexplored arm (count 0) gets priority `0.0` — not
plus-infinity — so unexplored arms sort after arms with positive
average reward (they only precede arms with negative averages). -/
theorem get_product_stats_sorted_desc (b : MultiArmedBandit) :
    (get_product_stats b).Pairwise (fun a c => c.priority_score ≤ a.priority_score) ∧
    ∀ s ∈ get_product_stats b,
      s.priority_score = s.average_reward ∧
      (s.interaction_count = 0 → s.priority_score = 0) := by
  constructor
  · exact sortStatsDesc_sorted _
  · intro s hs
    rw [get_product_stats] at hs
    simp only [] at hs
    rw [mem_sortStatsDesc] at hs
    obtain ⟨i, hi_mem, hi_eq⟩ := List.mem_map.mp hs
    rw [← hi_eq]
    refine ⟨rfl, fun hzero => ?_⟩
    have h0 : b.counts.getD i 0 = 0 := hzero
    show (if 0 < b.counts.getD i 0 then b.rewards.getD i 0 / (b.counts.getD i 0 : ℚ) else 0) = 0
    rw [if_neg (by omega)]

/-! C7: cold-start scores are clamped to [0, 1]. -/

/-- C7: for every recommender state and every product, the content
score lies in `[0, 1]`, and a product with no feature data scores
exactly `0.5`. -/
theorem calculate_product_score_bounds (cs : ColdStartRecommender) (p : Product) :
    (0 ≤ calculate_product_score cs p ∧ calculate_product_score cs p ≤ 1) ∧
    (p.features = none → calculate_product_score cs p = 0.5) := by
  unfold calculate_product_score
  cases hf : p.features with
  | none => norm_num
  | some f =>
    simp only []
    refine ⟨⟨le_max_left 0 _, ?_⟩, by simp⟩
    exact max_le (by norm_num) (min_le_left 1 _)

/-- Witness for C7: a featureless product scores exactly one half. -/
theorem calculate_product_score_bounds_witness :
    productA.features = none ∧
    (0 ≤ calculate_product_score (mkColdStart [productA]) productA ∧
      calculate_product_score (mkColdStart [productA]) productA ≤ 1) ∧
    calculate_product_score (mkColdStart [productA]) productA = 0.5 :=
  ⟨rfl,
   (calculate_product_score_bounds (mkColdStart [productA]) productA).1,
   (calculate_product_score_bounds (mkColdStart [productA]) productA).2 rfl⟩

/-! C10: the global merge is an exact deduplicated union. -/

theorem dedupSeen_spec :
    ∀ (l : List Product) (seen : List String),
      ((dedupSeen l seen).map Product.id).Nodup ∧
      (∀ p ∈ dedupSeen l seen, p.id ∉ seen) ∧
      (∀ pid, pid ∈ (dedupSeen l seen).map Product.id ↔
        (pid ∈ l.map Product.id ∧ pid ∉ seen)) := by
  intro l
  induction l with
  | nil => intro seen; simp [dedupSeen]
  | cons p rest ih =>
    intro seen
    rw [dedupSeen]
    split
    · rename_i hseen
      obtain ⟨ih1, ih2, ih3⟩ := ih seen
      refine ⟨ih1, ih2, ?_⟩
      intro pid
      rw [ih3]
      constructor
      · intro ⟨h1, h2⟩
        exact ⟨by simp [h1], h2⟩
      · intro ⟨h1, h2⟩
        rcases (by simpa using h1 : pid = p.id ∨ ∃ a ∈ rest, a.id = pid) with
          heq | ⟨a, ha, haid⟩
        · exact absurd (by rw [heq]; exact hseen) h2
        · exact ⟨List.mem_map.mpr ⟨a, ha, haid⟩, h2⟩
    · rename_i hseen
      obtain ⟨ih1, ih2, ih3⟩ := ih (p.id :: seen)
      refine ⟨?_, ?_, ?_⟩
      · rw [List.map_cons, List.nodup_cons]
        refine ⟨?_, ih1⟩
        intro hmem
        obtain ⟨q, hq_mem, hq_id⟩ := List.mem_map.mp hmem
        have := ih2 q hq_mem
        rw [hq_id] at this
        simp at this
      · intro q hq
        rcases List.mem_cons.mp hq with rfl | h2
        · exact hseen
        · have := ih2 q h2
          intro hcon
          exact this (by simp [hcon])
      · intro pid
        rw [List.map_cons, List.mem_cons, ih3]
        constructor
        · rintro (rfl | ⟨h1, h2⟩)
          · exact ⟨by simp, hseen⟩
          · exact ⟨by simp [h1], fun hcon => h2 (by simp [hcon])⟩
        · rintro ⟨h1, h2⟩
          rcases (by simpa using h1 : pid = p.id ∨ ∃ a ∈ rest, a.id = pid) with
            heq | ⟨a, ha, haid⟩
          · exact Or.inl heq
          · by_cases hpe : pid = p.id
            · exact Or.inl hpe
            · exact Or.inr ⟨List.mem_map.mpr ⟨a, ha, haid⟩, by simp [hpe, h2]⟩

theorem getD_cons_eraseIdx_perm {α : Type} (d : α) :
    ∀ (l : List α) (i : ℕ), i < l.length →
      List.Perm (l.getD i d :: l.eraseIdx i) l := by
  intro l
  induction l with
  | nil => intro i hi; simp at hi
  | cons x xs ih =>
    intro i hi
    match i with
    | 0 => simp
    | i + 1 =>
      have h := ih i (by simpa using Nat.lt_of_succ_lt_succ hi)
      show List.Perm (xs.getD i d :: x :: xs.eraseIdx i) (x :: xs)
      exact List.Perm.trans (List.Perm.swap x (xs.getD i d) (xs.eraseIdx i)) (h.cons x)

theorem shuffleModel_perm {α : Type} :
    ∀ (ks : List ℕ) (l : List α), List.Perm (shuffleModel l ks) l := by
  intro ks
  induction ks with
  | nil => intro l; cases l <;> exact List.Perm.refl _
  | cons k ks ih =>
    intro l
    cases l with
    | nil => simp [shuffleModel]
    | cons x xs =>
      rw [shuffleModel]
      have hi : k % (xs.length + 1) < (x :: xs).length := by
        simp only [List.length_cons]
        exact Nat.mod_lt _ (Nat.succ_pos _)
      exact List.Perm.trans
        ((ih ((x :: xs).eraseIdx (k % (xs.length + 1)))).cons _)
        (getD_cons_eraseIdx_perm x (x :: xs) _ hi)

/-- C10: the merged global recommendation list contains each product id
at most once, contains no excluded id, and is not capped at
`n_products`: a product id occurs in it exactly when it occurs in the
concatenation of all context bandits' selections and is not excluded
(so a product recommended by several contexts appears once). -/
theorem global_recommendations_unique_union (m : BanditManager) (n_products : ℕ)
    (exclude_products : List String) (randss : List (List Draw)) (fails : List Bool)
    (ks : List ℕ) :
    ((get_global_recommendations m n_products exclude_products randss fails ks).map
        Product.id).Nodup ∧
    (∀ p ∈ get_global_recommendations m n_products exclude_products randss fails ks,
      p.id ∉ exclude_products) ∧
    (∀ pid,
      pid ∈ (get_global_recommendations m n_products exclude_products randss fails ks).map
          Product.id ↔
        (pid ∈ (gatherAllRecommendations m n_products exclude_products randss fails).map
            Product.id ∧
          pid ∉ exclude_products)) := by
  obtain ⟨h1, h2, h3⟩ := dedupSeen_spec
    (gatherAllRecommendations m n_products exclude_products randss fails) exclude_products
  have hperm : List.Perm
      (get_global_recommendations m n_products exclude_products randss fails ks)
      (dedupSeen (gatherAllRecommendations m n_products exclude_products randss fails)
        exclude_products) := by
    unfold get_global_recommendations
    exact shuffleModel_perm ks _
  have hmap := hperm.map Product.id
  refine ⟨hmap.nodup_iff.mpr h1, ?_, ?_⟩
  · intro p hp
    exact h2 p (hperm.mem_iff.mp hp)
  · intro pid
    rw [hmap.mem_iff]
    exact h3 pid

/-! C9: the manager's error handling. -/

/-- C9 amended: `get_recommendations` is total (the embedding never
fails); every call — on every path, including both error paths —
increments `total_recommendations_served` by exactly 1; a raised
exception with no cold-start recommender yields an empty list tagged
source `"error"` (the message is only logged, never placed in the
metadata); a raised exception with a cold-start recommender present
falls back to it with source `"error_cold_start_fallback"`. -/
theorem get_recommendations_error_handling (m : BanditManager) (user_id : String)
    (n_products : ℕ) (context : String) (user_interactions_count : ℕ)
    (exclude_products : List String) (recommendation_strategy : String)
    (o : RecOracle) (exc : Option String) :
    ((get_recommendations m user_id n_products context user_interactions_count
        exclude_products recommendation_strategy o exc).1.total_recommendations_served
      = m.total_recommendations_served + 1) ∧
    (∀ msg, exc = some msg → m.cold_start_recommender = none →
      (get_recommendations m user_id n_products context user_interactions_count
          exclude_products recommendation_strategy o exc).2.metadata.recommendation_source
        = "error" ∧
      (get_recommendations m user_id n_products context user_interactions_count
          exclude_products recommendation_strategy o exc).2.recommendations = []) ∧
    (∀ msg cs, exc = some msg → m.cold_start_recommender = some cs →
      (get_recommendations m user_id n_products context user_interactions_count
          exclude_products recommendation_strategy o exc).2.metadata.recommendation_source
        = "error_cold_start_fallback") := by
  refine ⟨rfl, ?_, ?_⟩
  · intro msg hexc hcs
    subst hexc
    constructor
    · show (get_recommendations m user_id n_products context user_interactions_count
          exclude_products recommendation_strategy o (some msg)).2.metadata.recommendation_source = "error"
      unfold get_recommendations
      rw [hcs]
    · show (get_recommendations m user_id n_products context user_interactions_count
          exclude_products recommendation_strategy o (some msg)).2.recommendations = []
      unfold get_recommendations
      rw [hcs]
      rfl
  · intro msg cs hexc hcs
    subst hexc
    unfold get_recommendations
    rw [hcs]

/-- Witness for C9 (amended): concrete error-path calls with and
without a cold-start recommender, both bumping the served counter. -/
theorem get_recommendations_error_handling_witness :
    ((get_recommendations mgrEmpty "u" 5 "shoes" 3 [] "bandit" oracle0
        (some "boom")).1.total_recommendations_served
      = mgrEmpty.total_recommendations_served + 1) ∧
    ((get_recommendations mgrEmpty "u" 5 "shoes" 3 [] "bandit" oracle0
        (some "boom")).2.metadata.recommendation_source = "error") ∧
    ((get_recommendations mgrEmpty "u" 5 "shoes" 3 [] "bandit" oracle0
        (some "boom")).2.recommendations = []) ∧
    ((get_recommendations mgrCS "u" 5 "shoes" 3 [] "bandit" oracle0
        (some "boom")).2.metadata.recommendation_source = "error_cold_start_fallback") :=
  ⟨(get_recommendations_error_handling mgrEmpty "u" 5 "shoes" 3 [] "bandit" oracle0
      (some "boom")).1,
   ((get_recommendations_error_handling mgrEmpty "u" 5 "shoes" 3 [] "bandit" oracle0
      (some "boom")).2.1 "boom" rfl rfl).1,
   ((get_recommendations_error_handling mgrEmpty "u" 5 "shoes" 3 [] "bandit" oracle0
      (some "boom")).2.1 "boom" rfl rfl).2,
   (get_recommendations_error_handling mgrCS "u" 5 "shoes" 3 [] "bandit" oracle0
      (some "boom")).2.2 "boom" (mkColdStart [productA]) rfl rfl⟩

/-- C9 fails as stated on two points, shown at concrete inputs: with no
recommender at all and no raised exception the result is tagged
`"unknown"`, not `"error"`; and on the exception path the full returned
record is exactly the one below — the triggering message `"boom"`
appears nowhere in it (there is no message field in the metadata). -/
theorem get_recommendations_error_claim_false :
    ((get_recommendations mgrEmpty "u" 5 "global" 0 [] "cold_start" oracle0
        none).2.metadata.recommendation_source = "unknown") ∧
    ((get_recommendations mgrEmpty "u" 5 "global" 0 [] "cold_start" oracle0
        none).2.recommendations = []) ∧
    ((get_recommendations mgrEmpty "u" 5 "global" 0 [] "bandit" oracle0
        (some "boom")).2 =
      { user_id := "u", context := "global", recommendations := [],
        metadata := { recommendation_source := "error", is_new_user := true,
                      total_recommended_count := 0, timestamp := "t0" } }) := by
  refine ⟨?_, ?_, ?_⟩ <;> rfl

end WalBandit
